import Mathlib

/-!
Verification development for the SIGPLAY audio engine.

The definitions below are a shallow embedding of the playback state machine
(src/services/audio_player.py), the offline mix renderer and time stretcher
(src/floppy_mix_agent.py), and the spectrum analyzer normalization/smoothing
(src/services/spectrum_analyzer.py).  Machine floats are embedded as rationals
(every IEEE float value is a rational number); wall-clock time is passed to each
operation explicitly; external DSP library calls (pedalboard effects, librosa
time stretch, the transcendental fade curves) are abstracted as function
parameters, while all control flow, state updates and arithmetic of the
repository code are embedded directly.
-/

namespace SigPlay

/-- Modelled from the spec: the PlaybackState enum (models/playback.py, which is not
under src/); spec section 3.2 gives the enum as Stopped | Playing | Paused. -/
inductive PlaybackState
  | stopped
  | playing
  | paused
deriving DecidableEq, Repr

/-- Track metadata record (src/models/track.py).  A Python dataclass, so equality is
field-wise structural equality. -/
structure Track where
  title : String
  artist : String
  album : String
  duration : String
  filePath : String
deriving DecidableEq, Repr

/-- The mutable fields of the AudioPlayer singleton
(src/services/audio_player.py, __init__, lines 23-29).  time.time() is modelled by
passing the current wall-clock time to each operation as an explicit argument. -/
structure PlayerState where
  currentTrack : Option Track
  playlist : List Track
  currentIndex : Int
  volume : ℚ
  state : PlaybackState
  startTime : ℚ
  pausePosition : ℚ
deriving DecidableEq, Repr

/-- AudioPlayer.play (src/services/audio_player.py lines 34-50).  The pygame load/play
calls are abstracted as the predicate loads : Track → Bool; the returned Bool is true
when the call succeeded and false when the exception handler ran and re-raised.  On
success the track becomes current, the state is Playing, the wall-clock reference is
reset to now, and, when the playlist is non-empty and contains the track,
currentIndex is set to the index of its first occurrence (Python list.index).  On
failure only the exception handler runs: state := Stopped, currentTrack := None. -/
def play (loads : Track → Bool) (now : ℚ) (track : Track) (st : PlayerState) :
    PlayerState × Bool :=
  if loads track then
    let st1 : PlayerState :=
      { st with currentTrack := some track, state := .playing,
                startTime := now, pausePosition := 0 }
    if st.playlist ≠ [] ∧ track ∈ st.playlist then
      ({ st1 with currentIndex := (st.playlist.indexOf track : Int) }, true)
    else
      (st1, true)
  else
    ({ st with state := .stopped, currentTrack := none }, false)

/-- AudioPlayer.pause (src/services/audio_player.py lines 52-57): only from Playing;
stores the elapsed position now - startTime in pausePosition. -/
def pause (now : ℚ) (st : PlayerState) : PlayerState :=
  if st.state = .playing then
    { st with state := .paused, pausePosition := now - st.startTime }
  else st

/-- AudioPlayer.resume (src/services/audio_player.py lines 59-64): only from Paused;
re-anchors the wall-clock reference so that now - startTime equals pausePosition. -/
def resume (now : ℚ) (st : PlayerState) : PlayerState :=
  if st.state = .paused then
    { st with state := .playing, startTime := now - st.pausePosition }
  else st

/-- AudioPlayer.stop (src/services/audio_player.py lines 66-71). -/
def stop (st : PlayerState) : PlayerState :=
  { st with state := .stopped, startTime := 0, pausePosition := 0 }

/-- AudioPlayer.get_position (src/services/audio_player.py lines 121-129). -/
def getPosition (now : ℚ) (st : PlayerState) : ℚ :=
  match st.state with
  | .stopped => 0
  | .paused => st.pausePosition
  | .playing => now - st.startTime

/-- Python list indexing semantics for l[i] with an int index: non-negative indices
from the front, negative indices from the back, IndexError (None here) out of range. -/
def pyIndex (l : List Track) (i : Int) : Option Track :=
  if 0 ≤ i then l[i.toNat]?
  else if (-i).toNat ≤ l.length then l[l.length - (-i).toNat]? else none

/-- AudioPlayer.previous_track (src/services/audio_player.py lines 85-98).  none models
an uncaught IndexError from the playlist indexing; the Bool is the success flag of the
inner play call. -/
def previousTrack (loads : Track → Bool) (now : ℚ) (st : PlayerState) :
    Option (PlayerState × Bool) :=
  if st.playlist = [] then some (st, true)
  else if getPosition now st > 3 then
    match pyIndex st.playlist st.currentIndex with
    | some track => some (play loads now track st)
    | none => none
  else if st.currentIndex > 0 then
    match pyIndex st.playlist (st.currentIndex - 1) with
    | some track =>
        some (play loads now track { st with currentIndex := st.currentIndex - 1 })
    | none => none
  else some (st, true)

/-- C1: after a successful play at time t0, pausing at t0 + t1 stores the elapsed
position t1, resuming at t0 + t1 + d re-anchors the wall-clock reference, and reading
the position at t0 + t1 + d + t2 yields exactly t1 + t2, independent of the pause
duration d (exact in the model, hence within one timer tick); moreover pause is a
no-op in every state other than Playing and resume is a no-op in every state other
than Paused. -/
theorem pause_resume_position_exact (loads : Track → Bool) (track : Track)
    (st0 st : PlayerState) (t0 t1 d t2 : ℚ) (hload : loads track = true) :
    getPosition (t0 + t1 + d + t2)
        (resume (t0 + t1 + d) (pause (t0 + t1) (play loads t0 track st0).1)) = t1 + t2
    ∧ (st.state ≠ .playing → pause (t0 + t1) st = st)
    ∧ (st.state ≠ .paused → resume (t0 + t1 + d) st = st) := by
  refine ⟨?_, ?_, ?_⟩
  · by_cases hc : st0.playlist ≠ [] ∧ track ∈ st0.playlist
    · simp [play, hload, hc, pause, resume, getPosition]
      ring
    · simp [play, hload, hc, pause, resume, getPosition]
      ring
  · intro h
    simp [pause, h]
  · intro h
    simp [resume, h]

/-- C1 witness: concrete run with t1 = 10, pause duration 7, t2 = 5. -/
theorem pause_resume_position_exact_witness :
    getPosition (0 + 10 + 7 + 5) (resume (0 + 10 + 7) (pause (0 + 10)
      (play (fun _ => true) 0 ⟨"t", "a", "b", "1:00", "p.mp3"⟩
        ⟨none, [], -1, 7/10, .stopped, 0, 0⟩).1)) = 10 + 5 :=
  (pause_resume_position_exact (fun _ => true) ⟨"t", "a", "b", "1:00", "p.mp3"⟩
    ⟨none, [], -1, 7/10, .stopped, 0, 0⟩ ⟨none, [], -1, 7/10, .stopped, 0, 0⟩
    0 10 7 5 rfl).1

/-- C8: when the load fails, play re-raises (success flag false), leaves the playlist
position currentIndex and the playlist itself exactly as they were, and leaves the
engine in the well-defined Stopped state with no current track. -/
theorem play_failure_preserves_index (loads : Track → Bool) (track : Track)
    (st : PlayerState) (now : ℚ) (hfail : loads track = false) :
    (play loads now track st).2 = false
    ∧ (play loads now track st).1.currentIndex = st.currentIndex
    ∧ (play loads now track st).1.playlist = st.playlist
    ∧ (play loads now track st).1.state = .stopped := by
  unfold play
  simp [hfail]

/-- C8 witness: a concrete failing load keeps currentIndex = 2. -/
theorem play_failure_preserves_index_witness :
    (play (fun _ => false) 4 ⟨"t", "a", "b", "1:00", "p.mp3"⟩
        ⟨none, [], 2, 7/10, .playing, 1, 0⟩).1.currentIndex = 2 :=
  (play_failure_preserves_index (fun _ => false) ⟨"t", "a", "b", "1:00", "p.mp3"⟩
    ⟨none, [], 2, 7/10, .playing, 1, 0⟩ 4 rfl).2.1

/-- A track that appears twice in the playlist of dupState below. -/
def dupTrack : Track := ⟨"dup", "artist", "album", "3:00", "/tmp/x.mp3"⟩

/-- A player state whose playlist contains the same track twice, currently at index 1,
playing since wall-clock time 0. -/
def dupState : PlayerState :=
  { currentTrack := some dupTrack, playlist := [dupTrack, dupTrack], currentIndex := 1,
    volume := 7/10, state := .playing, startTime := 0, pausePosition := 0 }

/-- C6 counterexample: at position 5 > 3, previous_track restarts the current track but
changes currentIndex from 1 to 0, because play sets currentIndex to the first occurrence
of the track in the playlist (Python list.index) and the track occurs twice. -/
theorem previous_track_restart_changes_index :
    dupState.currentIndex = 1
    ∧ getPosition 5 dupState > 3
    ∧ (previousTrack (fun _ => true) 5 dupState).map (fun p => p.1.currentIndex)
        = some 0 := by
  refine ⟨rfl, by norm_num [getPosition, dupState], ?_⟩
  have h1 : previousTrack (fun _ => true) 5 dupState
      = some (play (fun _ => true) 5 dupTrack dupState) := by
    unfold previousTrack
    rw [if_neg (by simp [dupState] : ¬dupState.playlist = [])]
    rw [if_pos (by norm_num [getPosition, dupState] : getPosition 5 dupState > 3)]
    rfl
  rw [h1]
  simp [play, dupState, dupTrack, List.indexOf_cons_self]

/-- C6 (amended with the duplicate-free hypothesis the counterexample forces): for a
non-empty playlist without duplicate tracks and a valid current index, if the elapsed
position is strictly greater than 3.0 seconds previous_track restarts the same track
from position 0 without changing currentIndex; if the position is at most 3.0 seconds
it moves to currentIndex - 1 and plays that track, except at index 0 where it is a
no-op. -/
theorem previous_track_rule (st : PlayerState) (now : ℚ)
    (hnd : st.playlist.Nodup) (hlo : 0 ≤ st.currentIndex)
    (hhi : st.currentIndex < (st.playlist.length : Int)) :
    (getPosition now st > 3 →
      ∃ r, previousTrack (fun _ => true) now st = some (r, true)
        ∧ r.currentIndex = st.currentIndex
        ∧ r.currentTrack = st.playlist[st.currentIndex.toNat]?
        ∧ getPosition now r = 0)
    ∧ (getPosition now st ≤ 3 → st.currentIndex = 0 →
      previousTrack (fun _ => true) now st = some (st, true))
    ∧ (getPosition now st ≤ 3 → 0 < st.currentIndex →
      ∃ r, previousTrack (fun _ => true) now st = some (r, true)
        ∧ r.currentIndex = st.currentIndex - 1
        ∧ r.currentTrack = st.playlist[(st.currentIndex - 1).toNat]?
        ∧ getPosition now r = 0) := by
  have hlen : 0 < st.playlist.length := by omega
  have hne : st.playlist ≠ [] := by
    intro h
    rw [h] at hlen
    simp at hlen
  refine ⟨?_, ?_, ?_⟩
  · intro hpos
    have hint : st.currentIndex.toNat < st.playlist.length := by omega
    have hpy : pyIndex st.playlist st.currentIndex
        = some st.playlist[st.currentIndex.toNat] := by
      unfold pyIndex
      rw [if_pos hlo, List.getElem?_eq_getElem hint]
    have hmem : st.playlist[st.currentIndex.toNat] ∈ st.playlist :=
      List.getElem_mem hint
    have hidx : st.playlist.indexOf st.playlist[st.currentIndex.toNat]
        = st.currentIndex.toNat := List.indexOf_getElem hnd _ hint
    refine ⟨{ st with
          currentTrack := some (st.playlist[st.currentIndex.toNat]),
          state := .playing,
          startTime := now,
          pausePosition := 0,
          currentIndex :=
            (st.playlist.indexOf st.playlist[st.currentIndex.toNat] : Int) },
      ?_, ?_, ?_, ?_⟩
    · unfold previousTrack
      rw [if_neg hne, if_pos hpos, hpy]
      simp [play, hne, hmem]
    · simp [hidx, Int.toNat_of_nonneg hlo]
    · simp [List.getElem?_eq_getElem hint]
    · simp [getPosition]
  · intro hpos hzero
    unfold previousTrack
    rw [if_neg hne, if_neg (not_lt.mpr hpos)]
    rw [if_neg (by omega : ¬st.currentIndex > 0)]
  · intro hpos hposidx
    have hint : (st.currentIndex - 1).toNat < st.playlist.length := by omega
    have hpy : pyIndex st.playlist (st.currentIndex - 1)
        = some st.playlist[(st.currentIndex - 1).toNat] := by
      unfold pyIndex
      rw [if_pos (by omega : (0:Int) ≤ st.currentIndex - 1),
        List.getElem?_eq_getElem hint]
    have hmem : st.playlist[(st.currentIndex - 1).toNat] ∈ st.playlist :=
      List.getElem_mem hint
    have hidx : st.playlist.indexOf st.playlist[(st.currentIndex - 1).toNat]
        = (st.currentIndex - 1).toNat := List.indexOf_getElem hnd _ hint
    refine ⟨{ st with
          currentTrack := some (st.playlist[(st.currentIndex - 1).toNat]),
          state := .playing,
          startTime := now,
          pausePosition := 0,
          currentIndex :=
            (st.playlist.indexOf st.playlist[(st.currentIndex - 1).toNat] : Int) },
      ?_, ?_, ?_, ?_⟩
    · unfold previousTrack
      rw [if_neg hne, if_neg (not_lt.mpr hpos),
        if_pos (by omega : st.currentIndex > 0), hpy]
      simp [play, hne, hmem]
    · simp only [hidx]
      simp
      omega
    · simp [List.getElem?_eq_getElem hint]
    · simp [getPosition]

/-- A player state with two distinct tracks, currently at index 1, playing since
wall-clock time 0. -/
def abState : PlayerState :=
  { currentTrack := some ⟨"b", "b", "b", "1:00", "b.mp3"⟩,
    playlist := [⟨"a", "a", "a", "1:00", "a.mp3"⟩, ⟨"b", "b", "b", "1:00", "b.mp3"⟩],
    currentIndex := 1, volume := 7/10, state := .playing, startTime := 0,
    pausePosition := 0 }

/-- C6 witness: on a duplicate-free playlist at position 5 > 3, previous_track restarts
the current track at position 0 and keeps currentIndex = 1. -/
theorem previous_track_rule_witness :
    ∃ r, previousTrack (fun _ => true) 5 abState = some (r, true)
      ∧ r.currentIndex = abState.currentIndex
      ∧ r.currentTrack = abState.playlist[abState.currentIndex.toNat]?
      ∧ getPosition 5 r = 0 :=
  (previous_track_rule abState 5 (by decide) (by decide) (by decide)).1
    (by norm_num [getPosition, abState])

/-- The error of render_final_mix on zero segments (EmptyMixError in the spec;
src/floppy_mix_agent.py lines 679-680 refuse to proceed before any output exists). -/
inductive RenderError
  | emptyMix
deriving DecidableEq, Repr

/-- One entry of _mix_context.mix_segments (src/floppy_mix_agent.py lines 651-656).
The audio is modelled as one channel of samples: every array operation used by the
renderer acts identically and independently on each channel row. -/
structure MixSegment where
  audio : List ℚ
  sampleRate : ℚ
  crossfadeDuration : ℚ
  trackId : String
deriving DecidableEq, Repr

/-- Value i of np.linspace(0, 1, n): i / (n - 1), with the degenerate n ≤ 1 cases
returning 0. -/
def linT (i n : ℕ) : ℚ :=
  if n ≤ 1 then 0 else (i : ℚ) / ((n : ℚ) - 1)

/-- The blended overlap region of render_final_mix (src/floppy_mix_agent.py lines
699-706): index i of the region is accTail[i] * fade_out(t_i) + segHead[i] *
fade_in(t_i) with t_i the linspace value of i over n.  The equal-power curves
fade_out = cos(t*pi/2) and fade_in = sin(t*pi/2) are transcendental, so the curves
are function parameters here; the code instantiates them with the float
approximations of cos and sin at those points. -/
def blendRegion (fadeIn fadeOut : ℚ → ℚ) (accTail segHead : List ℚ) (n : ℕ) :
    List ℚ :=
  (List.range n).map fun i =>
    accTail.getD i 0 * fadeOut (linT i n) + segHead.getD i 0 * fadeIn (linT i n)

/-- crossfade_samples (src/floppy_mix_agent.py lines 695-696):
int(crossfade_duration * sample_rate) clamped by the accumulator length and the
segment length. -/
def crossfadeSamples (duration sampleRate : ℚ) (accLen segLen : ℕ) : ℕ :=
  min (Int.toNat ⌊duration * sampleRate⌋) (min accLen segLen)

/-- One iteration of the render loop for a non-first segment
(src/floppy_mix_agent.py lines 693-716): equal-power crossfade when the segment's
crossfade duration is positive and does not degenerate to 0 frames, otherwise plain
concatenation. -/
def mixStep (fadeIn fadeOut : ℚ → ℚ) (sampleRate : ℚ) (acc : List ℚ)
    (seg : MixSegment) : List ℚ :=
  if seg.crossfadeDuration > 0 then
    let n := crossfadeSamples seg.crossfadeDuration sampleRate acc.length
      seg.audio.length
    if n > 0 then
      acc.take (acc.length - n)
        ++ blendRegion fadeIn fadeOut (acc.drop (acc.length - n)) (seg.audio.take n) n
        ++ seg.audio.drop n
    else acc ++ seg.audio
  else acc ++ seg.audio

/-- The fold of the render loop (src/floppy_mix_agent.py lines 687-716): the first
segment seeds the accumulator, each later segment is folded in by mixStep. -/
def renderLoop (fadeIn fadeOut : ℚ → ℚ) (sampleRate : ℚ) (acc : List ℚ) :
    List MixSegment → List ℚ
  | [] => acc
  | seg :: rest =>
      renderLoop fadeIn fadeOut sampleRate (mixStep fadeIn fadeOut sampleRate acc seg)
        rest

/-- render_final_mix (src/floppy_mix_agent.py lines 667-732) up to the file write:
error on an empty segment list (then no buffer is produced and no file written);
otherwise fold the loop from the first segment's audio, using the first segment's
sample rate for every crossfade, and when normalize is true pass the result through
the limiter (lines 718-720), abstracted as a parameter. -/
def renderFinalMix (limiter : List ℚ → List ℚ) (fadeIn fadeOut : ℚ → ℚ)
    (segments : List MixSegment) (normalize : Bool) : Except RenderError (List ℚ) :=
  match segments with
  | [] => .error .emptyMix
  | s0 :: rest =>
      let raw := renderLoop fadeIn fadeOut s0.sampleRate s0.audio rest
      .ok (if normalize then limiter raw else raw)

/-- C7: render fails with EmptyMixError exactly when the segment list is empty, and
with at least one segment it returns a buffer, never EmptyMixError. -/
theorem render_empty_mix_iff (limiter : List ℚ → List ℚ) (fadeIn fadeOut : ℚ → ℚ)
    (segments : List MixSegment) (normalize : Bool) :
    (renderFinalMix limiter fadeIn fadeOut segments normalize = .error .emptyMix
      ↔ segments = [])
    ∧ (segments ≠ [] →
      ∃ buf, renderFinalMix limiter fadeIn fadeOut segments normalize = .ok buf) := by
  cases segments with
  | nil => simp [renderFinalMix]
  | cons s rest => simp [renderFinalMix]

/-- C7 witness: one concrete segment renders to some buffer. -/
theorem render_empty_mix_iff_witness :
    ∃ buf, renderFinalMix id id id [⟨[1, 0], 44100, 0, "track_1"⟩] true = .ok buf :=
  (render_empty_mix_iff id id id [⟨[1, 0], 44100, 0, "track_1"⟩] true).2 (by simp)

/-- C2: a zero (or degenerate) crossfade is plain concatenation, and for the concrete
scenario of two 441000-frame buffers at 44100 Hz with a 3.0 s crossfade on segment 2
and no normalization, the rendered buffer is accumulator head (frames [0, 308700)) ++
equal-power blend (frames [308700, 441000)) ++ segment tail, 749700 frames in all,
with the 132300 blended frames given by the blendRegion formula. -/
theorem render_crossfade_composition (fadeIn fadeOut : ℚ → ℚ)
    (limiter : List ℚ → List ℚ) (s1 s2 : MixSegment)
    (h1 : s1.audio.length = 441000) (h2 : s2.audio.length = 441000)
    (hsr : s1.sampleRate = 44100) (hcf : s2.crossfadeDuration = 3) :
    (∀ (sr : ℚ) (acc : List ℚ) (seg : MixSegment), seg.crossfadeDuration ≤ 0 →
      mixStep fadeIn fadeOut sr acc seg = acc ++ seg.audio)
    ∧ (∀ (sr : ℚ) (acc : List ℚ) (seg : MixSegment),
      crossfadeSamples seg.crossfadeDuration sr acc.length seg.audio.length = 0 →
      mixStep fadeIn fadeOut sr acc seg = acc ++ seg.audio)
    ∧ renderFinalMix limiter fadeIn fadeOut [s1, s2] false
      = .ok (s1.audio.take 308700
          ++ blendRegion fadeIn fadeOut (s1.audio.drop 308700) (s2.audio.take 132300)
              132300
          ++ s2.audio.drop 132300)
    ∧ (s1.audio.take 308700
        ++ blendRegion fadeIn fadeOut (s1.audio.drop 308700) (s2.audio.take 132300)
            132300
        ++ s2.audio.drop 132300).length = 749700
    ∧ ((s1.audio.take 308700
        ++ blendRegion fadeIn fadeOut (s1.audio.drop 308700) (s2.audio.take 132300)
            132300
        ++ s2.audio.drop 132300).drop 308700).take 132300
      = blendRegion fadeIn fadeOut (s1.audio.drop 308700) (s2.audio.take 132300)
          132300 := by
  have hfloor : Int.toNat ⌊(3:ℚ) * 44100⌋ = 132300 := by
    norm_num
    rfl
  have hn : crossfadeSamples s2.crossfadeDuration s1.sampleRate 441000 441000
      = 132300 := by
    rw [hcf, hsr]
    unfold crossfadeSamples
    rw [hfloor]
    omega
  have hstep : mixStep fadeIn fadeOut s1.sampleRate s1.audio s2
      = s1.audio.take 308700
        ++ blendRegion fadeIn fadeOut (s1.audio.drop 308700) (s2.audio.take 132300)
            132300
        ++ s2.audio.drop 132300 := by
    unfold mixStep
    rw [if_pos (by rw [hcf]; norm_num : s2.crossfadeDuration > 0)]
    simp only [h1, h2, hn]
    norm_num
  have htakelen : (s1.audio.take 308700).length = 308700 := by
    simp [h1]
  have hblendlen : (blendRegion fadeIn fadeOut (s1.audio.drop 308700)
      (s2.audio.take 132300) 132300).length = 132300 := by
    simp [blendRegion]
  refine ⟨?_, ?_, ?_, ?_, ?_⟩
  · intro sr acc seg h
    simp [mixStep, not_lt.mpr h]
  · intro sr acc seg h
    unfold mixStep
    split
    · simp only [h]
      norm_num
    · rfl
  · show Except.ok (mixStep fadeIn fadeOut s1.sampleRate s1.audio s2)
        = Except.ok (s1.audio.take 308700
          ++ blendRegion fadeIn fadeOut (s1.audio.drop 308700) (s2.audio.take 132300)
              132300
          ++ s2.audio.drop 132300)
    rw [hstep]
  · simp only [List.length_append, htakelen, hblendlen, List.length_drop, h2]
  · rw [List.append_assoc, List.drop_left' htakelen, List.take_left' hblendlen]

/-- First concrete segment of the C2 witness: 441000 frames of 1 at 44100 Hz. -/
def witSeg1 : MixSegment := ⟨List.replicate 441000 1, 44100, 0, "track_1"⟩

/-- Second concrete segment of the C2 witness: 441000 frames of 1/2 with a 3.0 s
crossfade. -/
def witSeg2 : MixSegment := ⟨List.replicate 441000 (1/2), 44100, 3, "track_2"⟩

/-- C2 witness: concrete 441000-frame constant buffers at 44100 Hz with a 3.0 s
crossfade render to the 749700-frame composition. -/
theorem render_crossfade_composition_witness :
    renderFinalMix id id id [witSeg1, witSeg2] false
      = .ok (witSeg1.audio.take 308700
          ++ blendRegion id id (witSeg1.audio.drop 308700) (witSeg2.audio.take 132300)
              132300
          ++ witSeg2.audio.drop 132300) :=
  (render_crossfade_composition id id id witSeg1 witSeg2
    (List.length_replicate 441000 1) (List.length_replicate 441000 (1/2))
    rfl rfl).2.2.1

/-- Modelled from the spec: the normalize branch of render_final_mix applies
pedalboard.Limiter(threshold_db = -1.0, release_ms = 100.0)
(src/floppy_mix_agent.py lines 718-720), an external library effect whose
implementation is not part of this repository.  Following the spec words "apply a
limiter at -1 dB threshold", it is modelled as per-sample clamping of the buffer to
the linear threshold amplitude thr (the -1 dB full-scale value, about 0.8913); in
particular it is transparent on material that never reaches the threshold. -/
def limiterModel (thr : ℚ) (buf : List ℚ) : List ℚ :=
  buf.map fun x => max (-thr) (min thr x)

/-- Peak absolute amplitude of a buffer. -/
def peakAbs (buf : List ℚ) : ℚ :=
  buf.foldr (fun x m => max |x| m) 0

/-- Written from the claim words, for comparison with the code: scale the whole
buffer by 0.95 divided by the peak absolute amplitude, skipped when the peak is 0. -/
def peakScaleSpec (buf : List ℚ) : List ℚ :=
  if peakAbs buf = 0 then buf else buf.map (· * (19/20 / peakAbs buf))

/-- C3 counterexample: on the single segment [1/2] the code's normalization (the
-1 dB limiter, clamp threshold 8913/10000) returns [1/2] unchanged, while the claimed
0.95/peak scaling would return [19/20]; the normalization step the code performs is
not the peak scaling the claim describes. -/
theorem render_normalize_not_peak_scale :
    renderFinalMix (limiterModel (8913/10000)) id id
        [⟨[1/2], 44100, 0, "track_1"⟩] true
      = .ok [1/2]
    ∧ peakScaleSpec [1/2] = [19/20]
    ∧ ((1:ℚ)/2) ≠ 19/20 := by
  refine ⟨?_, ?_, by norm_num⟩
  · show Except.ok (limiterModel (8913/10000)
        (renderLoop id id 44100 [1/2] [])) = _
    unfold renderLoop limiterModel
    norm_num [min_def, max_def]
  · unfold peakScaleSpec peakAbs
    norm_num [abs_of_nonneg]

/-- C3 (amended as the code forces, per the spec's stated alternative policy): with
at least one segment, normalize = true passes the rendered result through the -1 dB
limiter rather than scaling by 0.95/peak; under the clamp model with threshold
0 < thr ≤ 0.95 every output sample has absolute value at most thr, hence at most
0.95 and within full scale 1.0, and a silent render (all samples 0, peak 0) passes
through unchanged, so there is no divide-by-zero. -/
theorem render_limiter_peak_safety (thr : ℚ) (fadeIn fadeOut : ℚ → ℚ)
    (segments : List MixSegment) (hthr0 : 0 < thr) (hthr1 : thr ≤ 19/20)
    (hne : segments ≠ []) :
    ∃ raw, renderFinalMix (limiterModel thr) fadeIn fadeOut segments false = .ok raw
      ∧ renderFinalMix (limiterModel thr) fadeIn fadeOut segments true
          = .ok (limiterModel thr raw)
      ∧ (∀ x ∈ limiterModel thr raw, |x| ≤ 19/20 ∧ |x| ≤ 1)
      ∧ ((∀ x ∈ raw, x = 0) → limiterModel thr raw = raw) := by
  cases segments with
  | nil => exact absurd rfl hne
  | cons s0 rest =>
    refine ⟨renderLoop fadeIn fadeOut s0.sampleRate s0.audio rest, rfl, rfl, ?_, ?_⟩
    · intro x hx
      simp only [limiterModel, List.mem_map] at hx
      obtain ⟨y, _, rfl⟩ := hx
      have hlow : -thr ≤ max (-thr) (min thr y) := le_max_left _ _
      have hhigh : max (-thr) (min thr y) ≤ thr :=
        max_le (by linarith) (min_le_left _ _)
      have habs : |max (-thr) (min thr y)| ≤ thr := abs_le.mpr ⟨hlow, hhigh⟩
      exact ⟨le_trans habs hthr1, le_trans habs (by linarith)⟩
    · intro hz
      have hpt : ∀ x ∈ renderLoop fadeIn fadeOut s0.sampleRate s0.audio rest,
          max (-thr) (min thr x) = x := by
        intro x hx
        rw [hz x hx, min_eq_right hthr0.le, max_eq_right (neg_nonpos.mpr hthr0.le)]
      calc limiterModel thr (renderLoop fadeIn fadeOut s0.sampleRate s0.audio rest)
          = (renderLoop fadeIn fadeOut s0.sampleRate s0.audio rest).map id :=
            List.map_congr_left hpt
        _ = renderLoop fadeIn fadeOut s0.sampleRate s0.audio rest := List.map_id _

/-- C3 witness: threshold 1/2 on the silent one-segment mix. -/
theorem render_limiter_peak_safety_witness :
    ∃ raw, renderFinalMix (limiterModel (1/2)) id id
          [⟨[0, 0], 44100, 0, "track_1"⟩] false = .ok raw
      ∧ renderFinalMix (limiterModel (1/2)) id id
          [⟨[0, 0], 44100, 0, "track_1"⟩] true = .ok (limiterModel (1/2) raw)
      ∧ (∀ x ∈ limiterModel (1/2) raw, |x| ≤ 19/20 ∧ |x| ≤ 1)
      ∧ ((∀ x ∈ raw, x = 0) → limiterModel (1/2) raw = raw) :=
  render_limiter_peak_safety (1/2) id id [⟨[0, 0], 44100, 0, "track_1"⟩]
    (by norm_num) (by norm_num) (by simp)

/-- Outcome of time_stretch_to_bpm (src/floppy_mix_agent.py lines 189-254).  The code
reports outcomes as strings; the constructors name them: notLoaded the unknown-track
error, targetOutOfRange the "Target BPM out of range (60-200)" rejection,
stretchOutOfRange the "Cannot stretch ... (max 15%)" rejection, noOp the "already
close to target" skip, stretched the success. -/
inductive StretchResult
  | notLoaded
  | targetOutOfRange
  | stretchOutOfRange
  | noOp
  | stretched
deriving DecidableEq, Repr

/-- Both rejections of the stretch guardrails report the requested versus safe range
and are the StretchOutOfRange failure of the spec's error taxonomy. -/
def StretchResult.isOutOfRangeFailure : StretchResult → Bool
  | .targetOutOfRange => true
  | .stretchOutOfRange => true
  | _ => false

/-- MIN_BPM (src/floppy_mix_agent.py line 183). -/
def minBpm : ℚ := 60

/-- MAX_BPM (src/floppy_mix_agent.py line 184). -/
def maxBpm : ℚ := 200

/-- time_stretch_to_bpm (src/floppy_mix_agent.py lines 189-254) with the source BPM
given explicitly (the BPM-detection fallback is outside this claim).  The librosa
call librosa.effects.time_stretch(channel, rate = 1/stretch_ratio) is external DSP,
abstracted as stretchFn applied to the stretch ratio; the returned pair is the
outcome together with the track's cached audio after the call.  Guard order follows
the code: unknown track, then target range, then the within-5% no-op skip, then the
15% ratio limit, and only then the stretch. -/
def timeStretchToBpm (stretchFn : ℚ → List ℚ → List ℚ) (loaded : Bool)
    (targetBpm sourceBpm : ℚ) (audio : List ℚ) : StretchResult × List ℚ :=
  if ¬loaded then (.notLoaded, audio)
  else if ¬(minBpm ≤ targetBpm ∧ targetBpm ≤ maxBpm) then (.targetOutOfRange, audio)
  else
    if 19/20 ≤ sourceBpm / targetBpm ∧ sourceBpm / targetBpm ≤ 21/20 then
      (.noOp, audio)
    else if sourceBpm / targetBpm > 23/20 ∨ sourceBpm / targetBpm < 17/20 then
      (.stretchOutOfRange, audio)
    else (.stretched, stretchFn (sourceBpm / targetBpm) audio)

/-- C4: with ratio = source/target, a target BPM outside [60, 200] or a ratio outside
[0.85, 1.15] is rejected as an out-of-range failure with the audio unchanged; a ratio
in [0.95, 1.05] (with the target in range) is a no-op returning the input unchanged;
and the audio is actually stretched exactly when the target is in range and the ratio
lies in [0.85, 0.95) or (1.05, 1.15]. -/
theorem stretch_guardrails (stretchFn : ℚ → List ℚ → List ℚ)
    (targetBpm sourceBpm : ℚ) (audio : List ℚ) :
    (¬(minBpm ≤ targetBpm ∧ targetBpm ≤ maxBpm) →
      timeStretchToBpm stretchFn true targetBpm sourceBpm audio
        = (.targetOutOfRange, audio)
      ∧ StretchResult.targetOutOfRange.isOutOfRangeFailure = true)
    ∧ ((minBpm ≤ targetBpm ∧ targetBpm ≤ maxBpm) →
      (sourceBpm / targetBpm < 17/20 ∨ 23/20 < sourceBpm / targetBpm) →
      timeStretchToBpm stretchFn true targetBpm sourceBpm audio
        = (.stretchOutOfRange, audio)
      ∧ StretchResult.stretchOutOfRange.isOutOfRangeFailure = true)
    ∧ ((minBpm ≤ targetBpm ∧ targetBpm ≤ maxBpm) →
      (19/20 ≤ sourceBpm / targetBpm ∧ sourceBpm / targetBpm ≤ 21/20) →
      timeStretchToBpm stretchFn true targetBpm sourceBpm audio = (.noOp, audio))
    ∧ ((timeStretchToBpm stretchFn true targetBpm sourceBpm audio).1 = .stretched
      ↔ (minBpm ≤ targetBpm ∧ targetBpm ≤ maxBpm)
        ∧ ((17/20 ≤ sourceBpm / targetBpm ∧ sourceBpm / targetBpm < 19/20)
          ∨ (21/20 < sourceBpm / targetBpm ∧ sourceBpm / targetBpm ≤ 23/20))) := by
  refine ⟨?_, ?_, ?_, ?_⟩
  · intro h
    exact ⟨by simp [timeStretchToBpm, h], rfl⟩
  · intro ht hr
    have hno : ¬(19/20 ≤ sourceBpm / targetBpm ∧ sourceBpm / targetBpm ≤ 21/20) := by
      rcases hr with h | h
      · exact fun hc => absurd hc.1 (by linarith)
      · exact fun hc => absurd hc.2 (by linarith)
    have hout : sourceBpm / targetBpm > 23/20 ∨ sourceBpm / targetBpm < 17/20 := by
      rcases hr with h | h
      · exact Or.inr h
      · exact Or.inl h
    exact ⟨by simp [timeStretchToBpm, ht, hno, hout], rfl⟩
  · intro ht hr
    simp [timeStretchToBpm, ht, hr]
  · constructor
    · intro h
      by_cases ht : minBpm ≤ targetBpm ∧ targetBpm ≤ maxBpm
      · by_cases hno : 19/20 ≤ sourceBpm / targetBpm ∧ sourceBpm / targetBpm ≤ 21/20
        · simp [timeStretchToBpm, ht, hno] at h
        · by_cases hout : sourceBpm / targetBpm > 23/20 ∨ sourceBpm / targetBpm < 17/20
          · simp [timeStretchToBpm, ht, hno, hout] at h
          · push_neg at hno hout
            refine ⟨ht, ?_⟩
            by_cases hlow : sourceBpm / targetBpm < 19/20
            · exact Or.inl ⟨hout.2, hlow⟩
            · push_neg at hlow
              exact Or.inr ⟨hno hlow, hout.1⟩
      · simp [timeStretchToBpm, ht] at h
    · rintro ⟨ht, hr⟩
      have hno : ¬(19/20 ≤ sourceBpm / targetBpm ∧ sourceBpm / targetBpm ≤ 21/20) := by
        rcases hr with h | h
        · exact fun hc => absurd hc.1 (by linarith [h.2])
        · exact fun hc => absurd hc.2 (by linarith [h.1])
      have hout : ¬(sourceBpm / targetBpm > 23/20 ∨ sourceBpm / targetBpm < 17/20) := by
        rcases hr with h | h
        · rintro (hc | hc) <;> linarith [h.1, h.2]
        · rintro (hc | hc) <;> linarith [h.1, h.2]
      simp [timeStretchToBpm, ht, hno, hout]

/-- C4 witness: target 100, source 90, ratio 0.9 in [0.85, 0.95): the audio is
actually stretched. -/
theorem stretch_guardrails_witness :
    (timeStretchToBpm (fun _ a => a ++ a) true 100 90 [1]).1 = .stretched :=
  (stretch_guardrails (fun _ a => a ++ a) 100 90 [1]).2.2.2.mpr
    ⟨⟨by norm_num [minBpm], by norm_num [maxBpm]⟩, Or.inl ⟨by norm_num, by norm_num⟩⟩

/-- C5 counterexample: stretching from 120 BPM to 138 BPM gives ratio 120/138 = 20/23
(about 0.8696), which is not below 0.85: the guard passes, the operation returns the
stretched outcome rather than StretchOutOfRange, and the cached audio is replaced by
the stretch output (here [] differing from the input [1]). -/
theorem stretch_120_to_138_not_rejected :
    (17/20 : ℚ) < 120/138
    ∧ timeStretchToBpm (fun _ _ => []) true 138 120 [1] = (.stretched, [])
    ∧ StretchResult.stretched ≠ .stretchOutOfRange
    ∧ ([] : List ℚ) ≠ [1] := by
  refine ⟨by norm_num, ?_, by decide, by simp⟩
  norm_num [timeStretchToBpm, minBpm, maxBpm]

/-- C5 (amended as the arithmetic forces): the ratio 120/138 (about 0.8696) lies in
[0.85, 0.95), so the operation does not fail: it performs the stretch, replacing the
track's audio with the stretch of the input at that ratio. -/
theorem stretch_120_to_138_stretches (stretchFn : ℚ → List ℚ → List ℚ)
    (audio : List ℚ) :
    timeStretchToBpm stretchFn true 138 120 audio
      = (.stretched, stretchFn (120/138) audio)
    ∧ (17/20 : ℚ) ≤ 120/138 ∧ (120:ℚ)/138 < 19/20 := by
  refine ⟨?_, by norm_num, by norm_num⟩
  norm_num [timeStretchToBpm, minBpm, maxBpm]

/-- Frequency band data (src/models/frequency.py, FrequencyBands): the three
amplitude arrays and the capture timestamp. -/
structure FrequencyBands where
  bass : List ℚ
  mid : List ℚ
  high : List ℚ
  timestamp : ℚ
deriving DecidableEq, Repr

/-- numpy arr.max() with the 0 fallback used for empty bands
(src/services/spectrum_analyzer.py lines 204-208). -/
def npMaxOr0 : List ℚ → ℚ
  | [] => 0
  | x :: xs => xs.foldl max x

/-- SpectrumAnalyzer._normalize_amplitudes (src/services/spectrum_analyzer.py lines
188-215): the three bands are divided elementwise by their shared maximum when that
maximum is positive, otherwise returned unchanged.  The nan_to_num cleanup has no
counterpart over the rationals (no NaN or infinities exist). -/
def normalizeAmplitudes (bass mid high : List ℚ) : List ℚ × List ℚ × List ℚ :=
  if max (npMaxOr0 bass) (max (npMaxOr0 mid) (npMaxOr0 high)) > 0 then
    (bass.map (· / max (npMaxOr0 bass) (max (npMaxOr0 mid) (npMaxOr0 high))),
     mid.map (· / max (npMaxOr0 bass) (max (npMaxOr0 mid) (npMaxOr0 high))),
     high.map (· / max (npMaxOr0 bass) (max (npMaxOr0 mid) (npMaxOr0 high))))
  else (bass, mid, high)

/-- SpectrumAnalyzer._apply_smoothing (src/services/spectrum_analyzer.py lines
217-244): the first call stores and returns the current bands; afterwards the
exponential moving average (1 - alpha) * previous + alpha * current is formed
elementwise, stored as the new previous value and returned.  The result pair is
(returned bands, new previous-bands state). -/
def applySmoothing (alpha : ℚ) (previous : Option FrequencyBands)
    (current : FrequencyBands) : FrequencyBands × Option FrequencyBands :=
  match previous with
  | none => (current, some current)
  | some p =>
      (⟨List.zipWith (fun a b => (1 - alpha) * a + alpha * b) p.bass current.bass,
        List.zipWith (fun a b => (1 - alpha) * a + alpha * b) p.mid current.mid,
        List.zipWith (fun a b => (1 - alpha) * a + alpha * b) p.high current.high,
        current.timestamp⟩,
       some ⟨List.zipWith (fun a b => (1 - alpha) * a + alpha * b) p.bass current.bass,
        List.zipWith (fun a b => (1 - alpha) * a + alpha * b) p.mid current.mid,
        List.zipWith (fun a b => (1 - alpha) * a + alpha * b) p.high current.high,
        current.timestamp⟩)

/-- SpectrumAnalyzer.get_frequency_bands (src/services/spectrum_analyzer.py lines
246-270) after the FFT and band extraction: the band magnitude arrays are normalized
jointly, wrapped with the timestamp and smoothed against the stored previous
result. -/
def getFrequencyBands (alpha : ℚ) (previous : Option FrequencyBands)
    (bass mid high : List ℚ) (ts : ℚ) : FrequencyBands × Option FrequencyBands :=
  applySmoothing alpha previous
    ⟨(normalizeAmplitudes bass mid high).1,
     (normalizeAmplitudes bass mid high).2.1,
     (normalizeAmplitudes bass mid high).2.2, ts⟩

/-- One frame of FFT band magnitudes fed to the analyzer. -/
structure Frame where
  bass : List ℚ
  mid : List ℚ
  high : List ℚ
  ts : ℚ
deriving DecidableEq, Repr

/-- The analyzer polled over a sequence of frames, threading the previous-bands
state and collecting every returned FrequencyBands value. -/
def runAnalyzer (alpha : ℚ) (previous : Option FrequencyBands) :
    List Frame → List FrequencyBands
  | [] => []
  | f :: fs =>
      (getFrequencyBands alpha previous f.bass f.mid f.high f.ts).1
        :: runAnalyzer alpha
            (getFrequencyBands alpha previous f.bass f.mid f.high f.ts).2 fs

/-- All values of a list lie in [0, 1]. -/
def unitInterval (l : List ℚ) : Prop := ∀ x ∈ l, 0 ≤ x ∧ x ≤ 1

/-- All three bands lie in [0, 1]. -/
def FrequencyBands.inUnit (fb : FrequencyBands) : Prop :=
  unitInterval fb.bass ∧ unitInterval fb.mid ∧ unitInterval fb.high

/-- FFT magnitudes are absolute values of complex numbers, hence non-negative. -/
def Frame.nonneg (f : Frame) : Prop :=
  (∀ x ∈ f.bass, 0 ≤ x) ∧ (∀ x ∈ f.mid, 0 ≤ x) ∧ (∀ x ∈ f.high, 0 ≤ x)

lemma le_foldl_max (l : List ℚ) (y : ℚ) : y ≤ l.foldl max y := by
  induction l generalizing y with
  | nil => exact le_refl y
  | cons z zs ih => exact le_trans (le_max_left y z) (ih (max y z))

lemma mem_le_foldl_max (l : List ℚ) : ∀ (y x : ℚ), x ∈ l → x ≤ l.foldl max y := by
  induction l with
  | nil => intro y x hx; cases hx
  | cons z zs ih =>
    intro y x hx
    rcases List.mem_cons.mp hx with rfl | hx2
    · exact le_trans (le_max_right y x) (le_foldl_max zs _)
    · exact ih (max y z) x hx2

lemma mem_le_npMaxOr0 {l : List ℚ} {x : ℚ} (hx : x ∈ l) : x ≤ npMaxOr0 l := by
  cases l with
  | nil => cases hx
  | cons y ys =>
    show x ≤ ys.foldl max y
    rcases List.mem_cons.mp hx with rfl | hx2
    · exact le_foldl_max ys x
    · exact mem_le_foldl_max ys y x hx2

lemma normalize_component_unit {l : List ℚ} {m : ℚ} (hm : 0 < m)
    (hl : ∀ x ∈ l, 0 ≤ x) (hle : ∀ x ∈ l, x ≤ m) :
    unitInterval (l.map (· / m)) := by
  intro x hx
  simp only [List.mem_map] at hx
  obtain ⟨y, hy, rfl⟩ := hx
  exact ⟨div_nonneg (hl y hy) hm.le, (div_le_one hm).mpr (hle y hy)⟩

lemma normalizeAmplitudes_unit {bass mid high : List ℚ}
    (hb : ∀ x ∈ bass, 0 ≤ x) (hm : ∀ x ∈ mid, 0 ≤ x) (hh : ∀ x ∈ high, 0 ≤ x) :
    unitInterval (normalizeAmplitudes bass mid high).1
    ∧ unitInterval (normalizeAmplitudes bass mid high).2.1
    ∧ unitInterval (normalizeAmplitudes bass mid high).2.2 := by
  unfold normalizeAmplitudes
  by_cases h0 : max (npMaxOr0 bass) (max (npMaxOr0 mid) (npMaxOr0 high)) > 0
  · rw [if_pos h0]
    refine ⟨?_, ?_, ?_⟩
    · exact normalize_component_unit h0 hb fun x hx =>
        le_trans (mem_le_npMaxOr0 hx) (le_max_left _ _)
    · exact normalize_component_unit h0 hm fun x hx =>
        le_trans (mem_le_npMaxOr0 hx)
          (le_trans (le_max_left _ _) (le_max_right _ _))
    · exact normalize_component_unit h0 hh fun x hx =>
        le_trans (mem_le_npMaxOr0 hx)
          (le_trans (le_max_right _ _) (le_max_right _ _))
  · rw [if_neg h0]
    push_neg at h0
    refine ⟨?_, ?_, ?_⟩
    · intro x hx
      have hle : x ≤ 0 := le_trans (mem_le_npMaxOr0 hx)
        (le_trans (le_max_left _ _) h0)
      exact ⟨hb x hx, le_trans hle (by norm_num)⟩
    · intro x hx
      have hle : x ≤ 0 := le_trans (mem_le_npMaxOr0 hx)
        (le_trans (le_trans (le_max_left _ _) (le_max_right _ _)) h0)
      exact ⟨hm x hx, le_trans hle (by norm_num)⟩
    · intro x hx
      have hle : x ≤ 0 := le_trans (mem_le_npMaxOr0 hx)
        (le_trans (le_trans (le_max_right _ _) (le_max_right _ _)) h0)
      exact ⟨hh x hx, le_trans hle (by norm_num)⟩

lemma ema_zipWith_unit {alpha : ℚ} (h0 : 0 ≤ alpha) (h1 : alpha ≤ 1)
    {l1 l2 : List ℚ} (u1 : unitInterval l1) (u2 : unitInterval l2) :
    unitInterval (List.zipWith (fun a b => (1 - alpha) * a + alpha * b) l1 l2) := by
  induction l1 generalizing l2 with
  | nil => intro x hx; cases hx
  | cons a as ih =>
    cases l2 with
    | nil => intro x hx; cases hx
    | cons b bs =>
      intro x hx
      rcases List.mem_cons.mp hx with rfl | hx2
      · obtain ⟨ha0, ha1⟩ := u1 a (List.mem_cons_self a as)
        obtain ⟨hb0, hb1⟩ := u2 b (List.mem_cons_self b bs)
        refine ⟨?_, ?_⟩
        · show 0 ≤ (1 - alpha) * a + alpha * b
          have t1 : 0 ≤ (1 - alpha) * a := mul_nonneg (by linarith) ha0
          have t2 : 0 ≤ alpha * b := mul_nonneg h0 hb0
          linarith
        · show (1 - alpha) * a + alpha * b ≤ 1
          have t1 : (1 - alpha) * a ≤ (1 - alpha) * 1 :=
            mul_le_mul_of_nonneg_left ha1 (by linarith)
          have t2 : alpha * b ≤ alpha * 1 := mul_le_mul_of_nonneg_left hb1 h0
          linarith
      · exact ih (fun y hy => u1 y (List.mem_cons_of_mem _ hy))
          (fun y hy => u2 y (List.mem_cons_of_mem _ hy)) x hx2

lemma runAnalyzer_invariant (alpha : ℚ) (h0 : 0 ≤ alpha) (h1 : alpha ≤ 1) :
    ∀ (frames : List Frame) (previous : Option FrequencyBands),
      (∀ p, previous = some p → p.inUnit) → (∀ f ∈ frames, f.nonneg) →
      ∀ fb ∈ runAnalyzer alpha previous frames, fb.inUnit := by
  intro frames
  induction frames with
  | nil => intro previous _ _ fb hfb; cases hfb
  | cons f fs ih =>
    intro previous hprev hf fb hfb
    obtain ⟨hfb0, hfm, hfh⟩ := hf f (List.mem_cons_self f fs)
    have hcur : FrequencyBands.inUnit
        ⟨(normalizeAmplitudes f.bass f.mid f.high).1,
         (normalizeAmplitudes f.bass f.mid f.high).2.1,
         (normalizeAmplitudes f.bass f.mid f.high).2.2, f.ts⟩ :=
      normalizeAmplitudes_unit hfb0 hfm hfh
    have hout : (getFrequencyBands alpha previous f.bass f.mid f.high f.ts).1.inUnit
        ∧ ∀ p, (getFrequencyBands alpha previous f.bass f.mid f.high f.ts).2 = some p
          → p.inUnit := by
      unfold getFrequencyBands applySmoothing
      cases previous with
      | none =>
        exact ⟨hcur, fun p hp => by cases hp; exact hcur⟩
      | some q =>
        have hq : q.inUnit := hprev q rfl
        have hs : FrequencyBands.inUnit
            ⟨List.zipWith (fun a b => (1 - alpha) * a + alpha * b) q.bass
              (normalizeAmplitudes f.bass f.mid f.high).1,
             List.zipWith (fun a b => (1 - alpha) * a + alpha * b) q.mid
              (normalizeAmplitudes f.bass f.mid f.high).2.1,
             List.zipWith (fun a b => (1 - alpha) * a + alpha * b) q.high
              (normalizeAmplitudes f.bass f.mid f.high).2.2, f.ts⟩ :=
          ⟨ema_zipWith_unit h0 h1 hq.1 hcur.1,
           ema_zipWith_unit h0 h1 hq.2.1 hcur.2.1,
           ema_zipWith_unit h0 h1 hq.2.2 hcur.2.2⟩
        exact ⟨hs, fun p hp => by cases hp; exact hs⟩
    rcases List.mem_cons.mp hfb with rfl | hfb2
    · exact hout.1
    · exact ih _ hout.2 (fun g hg => hf g (List.mem_cons_of_mem _ hg)) fb hfb2

/-- C9: every FrequencyBands value the analyzer returns over any run has all bass,
mid and high values in [0, 1]: the joint normalization by the shared maximum lands
in [0, 1] on the non-negative FFT magnitudes, and the exponential-moving-average
smoothing (1 - alpha) * previous + alpha * current with fixed alpha in [0, 1]
preserves membership in [0, 1] given a previous result in [0, 1]. -/
theorem analyzer_bands_unit_interval (alpha : ℚ) (frames : List Frame)
    (h0 : 0 ≤ alpha) (h1 : alpha ≤ 1) (hf : ∀ f ∈ frames, f.nonneg) :
    (∀ fb ∈ runAnalyzer alpha none frames, fb.inUnit)
    ∧ (∀ (p cur : FrequencyBands), p.inUnit → cur.inUnit →
      (applySmoothing alpha (some p) cur).1.inUnit) := by
  refine ⟨runAnalyzer_invariant alpha h0 h1 frames none (by intro p hp; cases hp) hf,
    ?_⟩
  intro p cur hp hcur
  exact ⟨ema_zipWith_unit h0 h1 hp.1 hcur.1,
    ema_zipWith_unit h0 h1 hp.2.1 hcur.2.1,
    ema_zipWith_unit h0 h1 hp.2.2 hcur.2.2⟩

/-- C9 witness: alpha = 0.3 over two concrete frames of non-negative magnitudes. -/
theorem analyzer_bands_unit_interval_witness :
    (∀ fb ∈ runAnalyzer (3/10) none
        [⟨[2, 1], [0], [3], 0⟩, ⟨[1], [1], [1], 1⟩], fb.inUnit)
    ∧ (∀ (p cur : FrequencyBands), p.inUnit → cur.inUnit →
      (applySmoothing (3/10) (some p) cur).1.inUnit) :=
  analyzer_bands_unit_interval (3/10) [⟨[2, 1], [0], [3], 0⟩, ⟨[1], [1], [1], 1⟩]
    (by norm_num) (by norm_num) (by norm_num [Frame.nonneg])

/-- One entry of _mix_context.mix_segments in the store model
(src/floppy_mix_agent.py lines 651-656): the buffer is held by reference into the
heap of numpy arrays. -/
structure SegEntry where
  trackId : String
  ref : ℕ
  sampleRate : ℚ
  crossfadeDuration : ℚ
deriving DecidableEq, Repr

/-- The MixContext state (src/floppy_mix_agent.py lines 44-58) with an explicit heap
of numpy buffers, so that aliasing between the audio cache and the stored mix
segments is representable: heap cells are the arrays, the cache maps a track id to
(buffer reference, sample rate), and segments lists the stored mix entries in
order. -/
structure MixCtx where
  heap : List (List ℚ)
  cache : List (String × ℕ × ℚ)
  segments : List SegEntry
deriving DecidableEq, Repr

/-- Python dict lookup on the cache association list. -/
def cacheLookup (tid : String) : List (String × ℕ × ℚ) → Option (ℕ × ℚ)
  | [] => none
  | (k, v) :: rest => if k = tid then some v else cacheLookup tid rest

/-- Python dict assignment on the cache association list. -/
def cacheUpdate (tid : String) (v : ℕ × ℚ) : List (String × ℕ × ℚ) →
    List (String × ℕ × ℚ)
  | [] => [(tid, v)]
  | (k, w) :: rest =>
      if k = tid then (tid, v) :: rest else (k, w) :: cacheUpdate tid v rest

/-- Contents of heap cell r (empty buffer when out of range, which never occurs for
well-formed states). -/
def heapAt (ctx : MixCtx) (r : ℕ) : List ℚ := ctx.heap.getD r []

/-- Allocate a fresh heap cell for a newly produced numpy array; returns the new
state and the reference. -/
def allocBuf (ctx : MixCtx) (buf : List ℚ) : MixCtx × ℕ :=
  ({ ctx with heap := ctx.heap ++ [buf] }, ctx.heap.length)

/-- load_audio_track (src/floppy_mix_agent.py lines 105-137): decode the file into a
fresh buffer and bind the track id to it in the cache. -/
def loadAudioTrack (tid : String) (audio : List ℚ) (sr : ℚ) (ctx : MixCtx) : MixCtx :=
  { (allocBuf ctx audio).1 with
      cache := cacheUpdate tid ((allocBuf ctx audio).2, sr) ctx.cache }

/-- The shared write-back shape of every per-track processing tool in
src/floppy_mix_agent.py (apply_effects lines 386-389, apply_ladder_filter 441-442,
apply_parallel_effects 495-496, apply_creative_effects 541-544, automate_filter_sweep
596-610): read the cached buffer of the track, compute a fresh output array from it
(the pedalboard/numpy computation is abstracted as eff; every such call returns a
newly allocated array and never mutates its input in place), allocate the result and
rebind the cache entry.  An unknown track id is an error return leaving the state
unchanged. -/
def applyProcessing (eff : List ℚ → List ℚ) (tid : String) (ctx : MixCtx) : MixCtx :=
  match cacheLookup tid ctx.cache with
  | none => ctx
  | some (r, sr) =>
      { (allocBuf ctx (eff (heapAt ctx r))).1 with
          cache := cacheUpdate tid ((allocBuf ctx (eff (heapAt ctx r))).2, sr)
            ctx.cache }

/-- apply_effects (src/floppy_mix_agent.py lines 261-397); the Pedalboard chain is
the abstracted effect function (with an empty chain the code skips the write-back,
which has the same state effect as rebinding to an identical fresh array as far as
the stored segments are concerned). -/
def applyEffects (board : List ℚ → List ℚ) (tid : String) (ctx : MixCtx) : MixCtx :=
  applyProcessing board tid ctx

/-- apply_ladder_filter (src/floppy_mix_agent.py lines 403-449). -/
def applyLadderFilter (ladder : List ℚ → List ℚ) (tid : String) (ctx : MixCtx) :
    MixCtx :=
  applyProcessing ladder tid ctx

/-- apply_parallel_effects (src/floppy_mix_agent.py lines 452-503). -/
def applyParallelEffects (mixChain : List ℚ → List ℚ) (tid : String) (ctx : MixCtx) :
    MixCtx :=
  applyProcessing mixChain tid ctx

/-- apply_creative_effects (src/floppy_mix_agent.py lines 506-552). -/
def applyCreativeEffects (board : List ℚ → List ℚ) (tid : String) (ctx : MixCtx) :
    MixCtx :=
  applyProcessing board tid ctx

/-- automate_filter_sweep (src/floppy_mix_agent.py lines 555-617): the chunked
filter writes into a fresh np.zeros_like output array that then replaces the cache
entry. -/
def automateFilterSweep (sweep : List ℚ → List ℚ) (tid : String) (ctx : MixCtx) :
    MixCtx :=
  applyProcessing sweep tid ctx

/-- The time_stretch_to_bpm write-back (src/floppy_mix_agent.py lines 240-246): the
fresh stretched array replaces the cache entry only when the guards pass and the
stretch actually runs; every other outcome leaves the state unchanged. -/
def timeStretchTool (stretchFn : ℚ → List ℚ → List ℚ) (targetBpm sourceBpm : ℚ)
    (tid : String) (ctx : MixCtx) : MixCtx :=
  match cacheLookup tid ctx.cache with
  | none => ctx
  | some (r, sr) =>
      if (timeStretchToBpm stretchFn true targetBpm sourceBpm (heapAt ctx r)).1
          = .stretched then
        { (allocBuf ctx (timeStretchToBpm stretchFn true targetBpm sourceBpm
              (heapAt ctx r)).2).1 with
            cache := cacheUpdate tid ((allocBuf ctx (timeStretchToBpm stretchFn true
              targetBpm sourceBpm (heapAt ctx r)).2).2, sr) ctx.cache }
      else ctx

/-- The slice audio[:, start_sample:end_sample] of add_track_to_mix
(src/floppy_mix_agent.py lines 646-649) for the non-negative times of the claim,
including the Python falsy test: an end_time of None or 0.0 means the full track. -/
def pySlice (audio : List ℚ) (sr : ℚ) (startTime : ℚ) (endTime : Option ℚ) :
    List ℚ :=
  (audio.take (match endTime with
    | none => audio.length
    | some e => if e = 0 then audio.length else (⌊e * sr⌋).toNat)).drop
    (⌊startTime * sr⌋).toNat

/-- add_track_to_mix (src/floppy_mix_agent.py lines 620-664): copy the track's
current cached audio (a fresh heap cell holds the slice, so later cache rebinds
cannot reach it) and append the segment entry. -/
def addTrackToMix (tid : String) (crossfade startTime : ℚ) (endTime : Option ℚ)
    (ctx : MixCtx) : MixCtx :=
  match cacheLookup tid ctx.cache with
  | none => ctx
  | some (r, sr) =>
      { (allocBuf ctx (pySlice (heapAt ctx r) sr startTime endTime)).1 with
          segments := ctx.segments
            ++ [⟨tid, (allocBuf ctx (pySlice (heapAt ctx r) sr startTime endTime)).2,
                sr, crossfade⟩] }

/-- The mix segments as render_final_mix reads them: each stored entry resolved
through the heap to the MixSegment value it denotes. -/
def ctxMixSegments (ctx : MixCtx) : List MixSegment :=
  ctx.segments.map fun s => ⟨heapAt ctx s.ref, s.sampleRate, s.crossfadeDuration,
    s.trackId⟩

/-- Well-formed states: every stored segment reference points into the heap. -/
def MixCtx.wf (ctx : MixCtx) : Prop :=
  ∀ s ∈ ctx.segments, s.ref < ctx.heap.length

lemma getD_append_of_lt {α : Type} (l1 l2 : List α) (d : α) :
    ∀ n, n < l1.length → (l1 ++ l2).getD n d = l1.getD n d := by
  induction l1 with
  | nil =>
    intro n h
    exact absurd h (Nat.not_lt_zero n)
  | cons x xs ih =>
    intro n h
    cases n with
    | zero => rfl
    | succ m => exact ih m (by simpa using h)

lemma getD_append_length {α : Type} (l1 : List α) (b d : α) :
    (l1 ++ [b]).getD l1.length d = b := by
  induction l1 with
  | nil => rfl
  | cons x xs ih => exact ih

lemma heapAt_alloc (ctx : MixCtx) (buf : List ℚ) {r : ℕ} (h : r < ctx.heap.length) :
    heapAt (allocBuf ctx buf).1 r = heapAt ctx r :=
  getD_append_of_lt ctx.heap [buf] [] r h

lemma cacheLookup_update_ne (tid tid2 : String) (v : ℕ × ℚ) (h : tid2 ≠ tid) :
    ∀ c : List (String × ℕ × ℚ),
      cacheLookup tid2 (cacheUpdate tid v c) = cacheLookup tid2 c := by
  intro c
  induction c with
  | nil =>
    simp only [cacheUpdate, cacheLookup]
    rw [if_neg (fun hh => h hh.symm)]
  | cons p rest ih =>
    obtain ⟨k, w⟩ := p
    by_cases hk : k = tid
    · subst hk
      simp only [cacheUpdate, if_pos rfl, cacheLookup]
      rw [if_neg (fun hh => h hh.symm), if_neg (fun hh => h hh.symm)]
    · simp only [cacheUpdate, if_neg hk, cacheLookup]
      by_cases hk2 : k = tid2
      · simp [hk2]
      · simp [hk2, ih]

lemma rebind_preserves_segments (ctx : MixCtx) (buf : List ℚ) (tid : String)
    (sr : ℚ) (hwf : ctx.wf) :
    ctxMixSegments { (allocBuf ctx buf).1 with
        cache := cacheUpdate tid ((allocBuf ctx buf).2, sr) ctx.cache }
      = ctxMixSegments ctx
    ∧ MixCtx.wf { (allocBuf ctx buf).1 with
        cache := cacheUpdate tid ((allocBuf ctx buf).2, sr) ctx.cache } := by
  constructor
  · unfold ctxMixSegments
    apply List.map_congr_left
    intro s hs
    have hr : s.ref < ctx.heap.length := hwf s hs
    have : heapAt { (allocBuf ctx buf).1 with
        cache := cacheUpdate tid ((allocBuf ctx buf).2, sr) ctx.cache } s.ref
        = heapAt ctx s.ref := getD_append_of_lt ctx.heap [buf] [] s.ref hr
    rw [this]
  · intro s hs
    have hr : s.ref < ctx.heap.length := hwf s hs
    show s.ref < (ctx.heap ++ [buf]).length
    simp only [List.length_append, List.length_cons, List.length_nil]
    omega

lemma applyProcessing_frame (eff : List ℚ → List ℚ) (tid : String) (ctx : MixCtx)
    (hwf : ctx.wf) :
    ctxMixSegments (applyProcessing eff tid ctx) = ctxMixSegments ctx
    ∧ (applyProcessing eff tid ctx).wf
    ∧ ∀ tid2, tid2 ≠ tid →
      cacheLookup tid2 (applyProcessing eff tid ctx).cache
        = cacheLookup tid2 ctx.cache := by
  unfold applyProcessing
  cases hc : cacheLookup tid ctx.cache with
  | none => exact ⟨rfl, hwf, fun _ _ => rfl⟩
  | some p =>
    obtain ⟨r, sr⟩ := p
    obtain ⟨h1, h2⟩ := rebind_preserves_segments ctx (eff (heapAt ctx r)) tid sr hwf
    exact ⟨h1, h2, fun tid2 hne => cacheLookup_update_ne tid tid2 _ hne ctx.cache⟩

/-- C10: each per-track processing tool replaces only that track's cached audio:
the stored mix segments resolve to exactly the same buffers before and after
(so render_final_mix consumes each segment exactly as it was at the moment
add_track_to_mix copied it), other cache entries are untouched, well-formedness is
preserved, and add_track_to_mix itself appends the slice of the track's current
audio as a fresh snapshot. -/
theorem mix_segments_immutable (board ladder par cre swp : List ℚ → List ℚ)
    (stretchFn : ℚ → List ℚ → List ℚ) (targetBpm sourceBpm : ℚ)
    (tid : String) (ctx : MixCtx) (hwf : ctx.wf) :
    ctxMixSegments (applyEffects board tid ctx) = ctxMixSegments ctx
    ∧ ctxMixSegments (applyLadderFilter ladder tid ctx) = ctxMixSegments ctx
    ∧ ctxMixSegments (applyParallelEffects par tid ctx) = ctxMixSegments ctx
    ∧ ctxMixSegments (applyCreativeEffects cre tid ctx) = ctxMixSegments ctx
    ∧ ctxMixSegments (automateFilterSweep swp tid ctx) = ctxMixSegments ctx
    ∧ ctxMixSegments (timeStretchTool stretchFn targetBpm sourceBpm tid ctx)
        = ctxMixSegments ctx
    ∧ (applyEffects board tid ctx).wf
    ∧ (∀ tid2, tid2 ≠ tid →
      cacheLookup tid2 (applyEffects board tid ctx).cache
        = cacheLookup tid2 ctx.cache)
    ∧ (∀ (limiter : List ℚ → List ℚ) (fadeIn fadeOut : ℚ → ℚ) (normalize : Bool),
      renderFinalMix limiter fadeIn fadeOut
          (ctxMixSegments (applyEffects board tid ctx)) normalize
        = renderFinalMix limiter fadeIn fadeOut (ctxMixSegments ctx) normalize)
    ∧ (∀ (crossfade startTime : ℚ) (endTime : Option ℚ) (r : ℕ) (sr : ℚ),
      cacheLookup tid ctx.cache = some (r, sr) →
      ctxMixSegments (addTrackToMix tid crossfade startTime endTime ctx)
        = ctxMixSegments ctx
          ++ [⟨pySlice (heapAt ctx r) sr startTime endTime, sr, crossfade, tid⟩]
      ∧ (addTrackToMix tid crossfade startTime endTime ctx).wf) := by
  obtain ⟨hA, hW, hC⟩ := applyProcessing_frame board tid ctx hwf
  refine ⟨hA, (applyProcessing_frame ladder tid ctx hwf).1,
    (applyProcessing_frame par tid ctx hwf).1,
    (applyProcessing_frame cre tid ctx hwf).1,
    (applyProcessing_frame swp tid ctx hwf).1, ?_, hW, hC,
    fun limiter fadeIn fadeOut normalize => by rw [show ctxMixSegments
      (applyEffects board tid ctx) = ctxMixSegments ctx from hA], ?_⟩
  · cases hc : cacheLookup tid ctx.cache with
    | none =>
      have hEq : timeStretchTool stretchFn targetBpm sourceBpm tid ctx = ctx := by
        unfold timeStretchTool
        rw [hc]
      rw [hEq]
    | some p =>
      obtain ⟨r, sr⟩ := p
      have hEq : timeStretchTool stretchFn targetBpm sourceBpm tid ctx
          = if (timeStretchToBpm stretchFn true targetBpm sourceBpm
              (heapAt ctx r)).1 = .stretched then
            { (allocBuf ctx (timeStretchToBpm stretchFn true targetBpm sourceBpm
                  (heapAt ctx r)).2).1 with
                cache := cacheUpdate tid ((allocBuf ctx (timeStretchToBpm stretchFn
                  true targetBpm sourceBpm (heapAt ctx r)).2).2, sr) ctx.cache }
          else ctx := by
        unfold timeStretchTool
        rw [hc]
      rw [hEq]
      by_cases hs : (timeStretchToBpm stretchFn true targetBpm sourceBpm
          (heapAt ctx r)).1 = .stretched
      · rw [if_pos hs]
        exact (rebind_preserves_segments ctx _ tid sr hwf).1
      · rw [if_neg hs]
  · intro crossfade startTime endTime r sr hc
    have hEq : addTrackToMix tid crossfade startTime endTime ctx
        = { (allocBuf ctx (pySlice (heapAt ctx r) sr startTime endTime)).1 with
            segments := ctx.segments
              ++ [⟨tid, (allocBuf ctx (pySlice (heapAt ctx r) sr startTime
                  endTime)).2, sr, crossfade⟩] } := by
      unfold addTrackToMix
      rw [hc]
    rw [hEq]
    constructor
    · unfold ctxMixSegments
      simp only [List.map_append]
      congr 1
      · apply List.map_congr_left
        intro s hs
        have hr : s.ref < ctx.heap.length := hwf s hs
        have : (ctx.heap ++ [pySlice (heapAt ctx r) sr startTime endTime]).getD
            s.ref [] = ctx.heap.getD s.ref [] :=
          getD_append_of_lt ctx.heap _ [] s.ref hr
        show (⟨(ctx.heap ++ [pySlice (heapAt ctx r) sr startTime endTime]).getD
            s.ref [], s.sampleRate, s.crossfadeDuration, s.trackId⟩ : MixSegment)
          = ⟨ctx.heap.getD s.ref [], s.sampleRate, s.crossfadeDuration, s.trackId⟩
        rw [this]
      · show [(⟨(ctx.heap ++ [pySlice (heapAt ctx r) sr startTime endTime]).getD
            ctx.heap.length [], sr, crossfade, tid⟩ : MixSegment)] = _
        rw [getD_append_length ctx.heap (pySlice (heapAt ctx r) sr startTime endTime)
          []]
    · intro s hs
      show s.ref < (ctx.heap ++ [pySlice (heapAt ctx r) sr startTime endTime]).length
      rcases List.mem_append.mp hs with hs2 | hs2
      · have := hwf s hs2
        simp only [List.length_append, List.length_cons, List.length_nil]
        omega
      · rcases List.mem_singleton.mp hs2 with rfl
        simp only [allocBuf, List.length_append, List.length_cons, List.length_nil]
        omega

/-- C10 witness: a concrete state with one loaded track and one stored segment;
applying an effect leaves the stored segment buffers unchanged. -/
theorem mix_segments_immutable_witness :
    ctxMixSegments (applyEffects (fun b => b ++ b) "track_1"
        ⟨[[1, 2], [1]], [("track_1", 0, 44100)], [⟨"track_1", 1, 44100, 0⟩]⟩)
      = ctxMixSegments ⟨[[1, 2], [1]], [("track_1", 0, 44100)],
          [⟨"track_1", 1, 44100, 0⟩]⟩ :=
  (mix_segments_immutable (fun b => b ++ b) id id id id (fun _ a => a) 120 120
    "track_1" ⟨[[1, 2], [1]], [("track_1", 0, 44100)], [⟨"track_1", 1, 44100, 0⟩]⟩
    (by
      intro s hs
      rcases List.mem_singleton.mp hs with rfl
      decide)).1

end SigPlay
